import Mathlib

/-!
Verification of the request admission pipeline of the portfolio application.

This development embeds, as executable Lean definitions, the security and
admission logic of the repository:

* `src/lib/security.ts` — `sanitizeText`, `sanitizeEmail`, `containsXss`,
  `containsSqlInjection`, the chat and contact zod schemas;
* `src/env.validation.ts` (the rate-limit module) — the `rateLimit` wrapper,
  `getRateLimitHeaders`, and the in-process `SimpleRateLimiter`;
* `src/app/api/chat/route.ts` — the chat and contact `POST` handlers;
* `src/middleware.ts` — the route-classification and admission decision.

External libraries that the source calls (DOMPurify, `rate-limiter-flexible`,
the zod built-in email format check) are not part of the repository; where their
behaviour decides a property they are modelled from the specification, and each
such definition carries a doc comment saying so.

Strings are treated through their underlying character lists; machine time is a
natural number of milliseconds.
-/

/-! ## Character classes used by the regular expressions in `src/lib/security.ts` -/

/-- The `\w` class of JavaScript regular expressions: `[A-Za-z0-9_]`. -/
def isWordChar (c : Char) : Bool :=
  c.isAlphanum || c == '_'

/-- Whitespace as used by JavaScript `trim` and the `\s` class (ASCII part). -/
def isWsChar (c : Char) : Bool :=
  c == ' ' || c == '\t' || c == '\n' || c == '\r' || c == '\x0b' || c == '\x0c'

/-- The local-part character class of the e-mail regex: `[a-zA-Z0-9._%+-]`. -/
def isLocalChar (c : Char) : Bool :=
  c.isAlphanum || c == '.' || c == '_' || c == '%' || c == '+' || c == '-'

/-- The domain character class of the e-mail regex: `[a-zA-Z0-9.-]`. -/
def isDomainChar (c : Char) : Bool :=
  c.isAlphanum || c == '.' || c == '-'

/-- ASCII lower-casing of a string, as JavaScript `toLowerCase` on ASCII data. -/
def lowerStr (s : String) : String :=
  ⟨s.data.map Char.toLower⟩

/-! ## List scanning primitives (substring and prefix tests) -/

/-- Test that `l` starts with the character list `pre`. -/
def startsWithL : List Char → List Char → Bool
  | [], _ => true
  | _ :: _, [] => false
  | p :: ps, c :: cs => p == c && startsWithL ps cs

/-- Test that some suffix of `l` (including `[]`) satisfies `f`. -/
def scanAny (f : List Char → Bool) : List Char → Bool
  | [] => f []
  | c :: cs => f (c :: cs) || scanAny f cs

/-- Test that `pat` occurs as a contiguous substring of `l`. -/
def hasSubL (pat : List Char) (l : List Char) : Bool :=
  scanAny (startsWithL pat) l

/-! ## `sanitizeText` (src/lib/security.ts, lines 20–32)

`sanitizeText` first runs DOMPurify with no allowed tags or attributes and
`KEEP_CONTENT: true`, then trims and truncates to 10000 characters. -/

/-- Modelled from the spec: DOMPurify sanitization with `ALLOWED_TAGS: []`,
`ALLOWED_ATTR: []`, `KEEP_CONTENT: true` (library code not in the repository)
"strips all markup" while keeping text content.  The model removes every
`<`…`>` tag span and drops an unterminated `<` together with the rest of the
input; text outside tags is kept verbatim.  `inTag` records whether the scan is
currently inside a tag. -/
def stripAux (inTag : Bool) : List Char → List Char
  | [] => []
  | c :: cs =>
    if inTag then
      if c == '>' then stripAux false cs else stripAux true cs
    else
      if c == '<' then stripAux true cs else c :: stripAux false cs

/-- Trimming of leading and trailing whitespace, as JavaScript `trim`. -/
def trimChars (l : List Char) : List Char :=
  ((l.dropWhile isWsChar).reverse.dropWhile isWsChar).reverse

/-- Body of `sanitizeText` on character lists: strip markup, trim, truncate to 10000. -/
def sanitizeTextL (l : List Char) : List Char :=
  (trimChars (stripAux false l)).take 10000

/-- Embedding of `sanitizeText` (src/lib/security.ts, lines 20–32).  The non-string input
branch of the source is outside the model since inputs here are strings. -/
def sanitizeText (s : String) : String :=
  ⟨sanitizeTextL s.data⟩

/-! ## `sanitizeEmail` (src/lib/security.ts, lines 37–46) -/

/-- Matcher for the domain part `[a-zA-Z0-9.-]+\.[a-zA-Z]{2,}$` of the e-mail
regex: working from the end, the run after the last dot (the reversed
`takeWhile`) is the TLD of at least two letters, and before the dot a nonempty
run of domain characters must remain (the tail of the reversed `dropWhile`). -/
def domMatch (dom : List Char) : Bool :=
  !(dom.reverse.dropWhile (fun c => c != '.')).isEmpty &&
  !((dom.reverse.dropWhile (fun c => c != '.')).tail).isEmpty &&
  ((dom.reverse.dropWhile (fun c => c != '.')).tail).all isDomainChar &&
  decide (2 ≤ (dom.reverse.takeWhile (fun c => c != '.')).length) &&
  (dom.reverse.takeWhile (fun c => c != '.')).all Char.isAlpha

/-- Matcher for the source regex `^[a-zA-Z0-9._%+-]+@[a-zA-Z0-9.-]+\.[a-zA-Z]{2,}$`:
split at the first `@` (the character classes on either side exclude `@`, so
the split is forced); a nonempty local part of local characters, then the
domain match on what follows the `@` (the tail of the `dropWhile`). -/
def emailMatch (l : List Char) : Bool :=
  !(l.takeWhile (fun c => c != '@')).isEmpty &&
  (l.takeWhile (fun c => c != '@')).all isLocalChar &&
  !(l.dropWhile (fun c => c != '@')).isEmpty &&
  domMatch ((l.dropWhile (fun c => c != '@')).tail)

/-- Declarative reading of the e-mail regular expression: some decomposition
`loc ++ @ ++ mid ++ . ++ tld` with the character-class and length constraints. -/
def EmailRegex (l : List Char) : Prop :=
  ∃ loc mid tld : List Char,
    l = loc ++ '@' :: (mid ++ '.' :: tld) ∧
    loc ≠ [] ∧ (∀ c ∈ loc, isLocalChar c = true) ∧
    mid ≠ [] ∧ (∀ c ∈ mid, isDomainChar c = true) ∧
    2 ≤ tld.length ∧ (∀ c ∈ tld, c.isAlpha = true)

/-- Embedding of `sanitizeEmail` (src/lib/security.ts, lines 37–46): sanitize, test against
the e-mail regex, return the lower-cased value on a match and `""` otherwise. -/
def sanitizeEmail (email : String) : String :=
  let cleaned := sanitizeText email
  if emailMatch cleaned.data then lowerStr cleaned else ""

/-! ## Heuristic pattern checks (src/lib/security.ts, lines 135–158) -/

/-- Opening of the script-tag pattern, matched case-insensitively
on the lowered input. -/
def scriptOpen : List Char := ['<', 's', 'c', 'r', 'i', 'p', 't']

/-- Closing script tag. -/
def scriptClose : List Char := ['<', '/', 's', 'c', 'r', 'i', 'p', 't', '>']

/-- One position matches `<script\b` and is later followed by `</script>`:
the semantics of `/<script\b[^<]*(?:(?!<\/script>)<[^<]*)*<\/script>/`. -/
def scriptPatAt (l : List Char) : Bool :=
  startsWithL scriptOpen l &&
    (match l.drop scriptOpen.length with
     | [] => false
     | c :: cs => !isWordChar c && hasSubL scriptClose (c :: cs))

/-- One position matches `on\w+\s*=` (inline event handler). -/
def onEventAt (l : List Char) : Bool :=
  match l with
  | 'o' :: 'n' :: rest =>
    !(rest.takeWhile isWordChar).isEmpty &&
      (match (rest.dropWhile isWordChar).dropWhile isWsChar with
       | '=' :: _ => true
       | _ => false)
  | _ => false

/-- Embedding of `containsXss` (src/lib/security.ts, lines 148–158): script tags, the
`javascript:` scheme, inline event handlers, `<iframe`, `eval(`; all the
source patterns carry the `i` flag or are case-independent, so the input is
lowered once. -/
def containsXss (s : String) : Bool :=
  let l := s.data.map Char.toLower
  scanAny scriptPatAt l ||
  hasSubL ['j', 'a', 'v', 'a', 's', 'c', 'r', 'i', 'p', 't', ':'] l ||
  scanAny onEventAt l ||
  hasSubL ['<', 'i', 'f', 'r', 'a', 'm', 'e'] l ||
  hasSubL ['e', 'v', 'a', 'l', '('] l

/-- The SQL keywords of the first pattern, lowered. -/
def sqlKeywords : List (List Char) :=
  [['s', 'e', 'l', 'e', 'c', 't'], ['i', 'n', 's', 'e', 'r', 't'],
   ['u', 'p', 'd', 'a', 't', 'e'], ['d', 'e', 'l', 'e', 't', 'e'],
   ['d', 'r', 'o', 'p'], ['c', 'r', 'e', 'a', 't', 'e'],
   ['a', 'l', 't', 'e', 'r'], ['e', 'x', 'e', 'c'],
   ['e', 'x', 'e', 'c', 'u', 't', 'e']]

/-- The word-boundary test after a keyword: end of input or a non-word char. -/
def boundaryAfter (l : List Char) : Bool :=
  match l with
  | [] => true
  | c :: _ => !isWordChar c

/-- Scan for `\bkw\b`: an occurrence of `kw` whose previous character (if any)
and following character (if any) are not word characters.  `prevWord` says
whether the character just before the current position is a word character. -/
def kwScanAux (kw : List Char) (prevWord : Bool) : List Char → Bool
  | [] => false
  | c :: cs =>
    (!prevWord && startsWithL kw (c :: cs) && boundaryAfter ((c :: cs).drop kw.length)) ||
      kwScanAux kw (isWordChar c) cs

/-- Test that `kw` occurs with word boundaries in `l` (the start of the string is a boundary). -/
def kwScan (kw : List Char) (l : List Char) : Bool :=
  kwScanAux kw false l

/-- The single-quote character, written by code to keep it out of literals. -/
def quoteChar : Char := Char.ofNat 39

/-- Embedding of `containsSqlInjection` (src/lib/security.ts, lines 135–143): SQL keywords
with word boundaries, comment tokens and the classic quote-break patterns.
The keyword and quote patterns carry the `i` flag, the comment tokens contain
no letters, so the input is lowered once. -/
def containsSqlInjection (s : String) : Bool :=
  let l := s.data.map Char.toLower
  sqlKeywords.any (fun kw => kwScan kw l) ||
  hasSubL ['-', '-'] l || hasSubL ['#'] l ||
  hasSubL ['/', '*'] l || hasSubL ['*', '/'] l ||
  hasSubL [quoteChar] l || hasSubL ['"', ';'] l ||
  hasSubL ['"', ';', '-', '-'] l ||
  hasSubL [quoteChar, ' ', 'o', 'r', ' ', quoteChar, '1', quoteChar, '=', quoteChar, '1'] l

/-! ## Zod schemas (src/lib/security.ts, lines 51–68)

zod validates every field constraint and then applies the declared transforms;
the outcome is all-or-nothing.  The parse functions below return `none` on any
constraint violation and the transformed data otherwise. -/

/-- One entry of the chat `messages` array. -/
structure ChatMsgIn where
  role : String
  content : String
deriving DecidableEq, Repr, Inhabited

/-- The chat request body shape that `chatMessageSchema` inspects. -/
structure ChatBody where
  messages : List ChatMsgIn
deriving DecidableEq, Repr, Inhabited

/-- Role check of the schema, `z.enum` over user, assistant, system. -/
def validRole (r : String) : Bool :=
  r == "user" || r == "assistant" || r == "system"

/-- Embedding of `chatMessageSchema` (src/lib/security.ts, lines 51–58): 1–50 messages, each
with an enumerated role and raw content of length 1–5000, whose content is then
passed through `sanitizeText`. -/
def chatMessageSchemaParse (b : ChatBody) : Option (List ChatMsgIn) :=
  if 1 ≤ b.messages.length ∧ b.messages.length ≤ 50 ∧
      ∀ m ∈ b.messages,
        validRole m.role = true ∧ 1 ≤ m.content.length ∧ m.content.length ≤ 5000 then
    some (b.messages.map fun m => ⟨m.role, sanitizeText m.content⟩)
  else none

/-- The contact request body shape that the contact handler inspects.
`website` is `none` when the field is absent or not a string. -/
structure ContactBody where
  name : String
  email : String
  message : String
  website : Option String
deriving DecidableEq, Repr, Inhabited

/-- Modelled from the spec: the zod built-in `z.string().email()` format check
(library code not in the repository); the spec describes the contact `email`
field only as an e-mail-validated string, so the model reuses the conservative
`localpart@domain.tld` pattern. -/
def zodEmailCheck (s : String) : Bool :=
  emailMatch s.data

/-- Embedding of `contactFormSchema` (src/lib/security.ts, lines 63–68): name of length
1–100 sanitized, e-mail validated then sanitized, message of length 10–5000
sanitized, optional honeypot `website` carried through unchanged. -/
def contactFormSchemaParse (b : ContactBody) : Option (String × String × String) :=
  if 1 ≤ b.name.length ∧ b.name.length ≤ 100 ∧ zodEmailCheck b.email = true ∧
      10 ≤ b.message.length ∧ b.message.length ≤ 5000 then
    some (sanitizeText b.name, sanitizeEmail b.email, sanitizeText b.message)
  else none

/-! ## HTTP responses and rate-limit results -/

/-- The JSON bodies the two handlers produce. -/
inductive RespBody where
  | errorMsg (s : String)
  | message (s : String)
  | contactMsg (s : String)
  | okTrue
deriving DecidableEq, Repr, Inhabited

/-- A response: status code, JSON body, extra headers. -/
structure HttpResponse where
  status : Nat
  body : RespBody
  headers : List (String × String)
deriving DecidableEq, Repr, Inhabited

/-- The text carried by a response body (empty for `{ok: true}`). -/
def bodyText (r : HttpResponse) : String :=
  match r.body with
  | .errorMsg s => s
  | .message s => s
  | .contactMsg s => s
  | .okTrue => ""

/-- The record returned by `rateLimit` (src/env.validation.ts rate-limit
module, lines 59–84).  `remaining` is an integer so that the sign of the
reported quota is a real question. -/
structure RateLimitResult where
  success : Bool
  limit : Nat
  remaining : Int
  reset : Nat
deriving DecidableEq, Repr, Inhabited

/-- Embedding of `getRateLimitHeaders` (rate-limit module, lines 89–99).  The source writes
`String(result.limit || 0)` and similarly for the other fields; on the numeric
values produced here the `|| 0` fallback coincides with plain stringification
(`0` maps to `"0"` either way). -/
def getRateLimitHeaders (r : RateLimitResult) : List (String × String) :=
  [("X-RateLimit-Limit", toString r.limit),
   ("X-RateLimit-Remaining", toString r.remaining),
   ("X-RateLimit-Reset", toString r.reset)]

/-! ## The primary rate limiter (`RateLimiterMemory` + `rateLimit`)

`rateLimit` (rate-limit module, lines 59–84) wraps `RateLimiterMemory` from the
external `rate-limiter-flexible` package.  The store maps a client key to a
remaining-points counter plus the start of its current window. -/

/-- Per-client consumption record of the primary limiter. -/
structure RLRecord where
  remaining : Int
  windowStartMs : Nat
deriving DecidableEq, Repr, Inhabited

/-- Association-list lookup, the model of `Map.get`. -/
def mapGet {α : Type} : List (String × α) → String → Option α
  | [], _ => none
  | (k, v) :: rest, key => if k = key then some v else mapGet rest key

/-- Association-list update, the model of `Map.set`: replace in place, append
when absent. -/
def mapSet {α : Type} : List (String × α) → String → α → List (String × α)
  | [], key, v => [(key, v)]
  | (k, w) :: rest, key, v =>
    if k = key then (key, v) :: rest else (k, w) :: mapSet rest key v

/-- Outcome of one consumption attempt against the primary limiter. -/
inductive ConsumeOutcome where
  | consumed (remainingPoints : Int) (msBeforeNext : Nat)
  | rejected (msBeforeNext : Nat)
deriving DecidableEq, Repr, Inhabited

/-- Policy plus per-client state of the primary limiter. -/
structure RateLimiterMemory where
  points : Nat
  durationMs : Nat
  store : List (String × RLRecord)
deriving DecidableEq, Repr, Inhabited

/-- Modelled from the spec (§4.1, the library `rate-limiter-flexible` is not in
the repository): "if the client has no record, or its window has fully elapsed,
initialize remaining = limit, reset window start to now.  Decrement remaining
by 1 if > 0 and report allowed; otherwise report denied with the current
`resetSeconds` = time until the window elapses."  Only an allowed call mutates
the per-client record. -/
def RateLimiterMemory.consume (rl : RateLimiterMemory) (ip : String) (nowMs : Nat) :
    ConsumeOutcome × RateLimiterMemory :=
  let rec0 : RLRecord :=
    match mapGet rl.store ip with
    | none => ⟨(rl.points : Int), nowMs⟩
    | some r => if r.windowStartMs + rl.durationMs ≤ nowMs then ⟨(rl.points : Int), nowMs⟩ else r
  if 0 < rec0.remaining then
    (ConsumeOutcome.consumed (rec0.remaining - 1) (rec0.windowStartMs + rl.durationMs - nowMs),
     ⟨rl.points, rl.durationMs, mapSet rl.store ip ⟨rec0.remaining - 1, rec0.windowStartMs⟩⟩)
  else
    (ConsumeOutcome.rejected (rec0.windowStartMs + rl.durationMs - nowMs), rl)

/-- Embedding of `rateLimit` (rate-limit module, lines 59–84): consume one point for the
client and report `{success, limit, remaining, reset}` with
`reset = Math.ceil(msBeforeNext / 1000)`; a rejection reports `remaining: 0`. -/
def rateLimit (rl : RateLimiterMemory) (ip : String) (nowMs : Nat) :
    RateLimitResult × RateLimiterMemory :=
  match rl.consume ip nowMs with
  | (ConsumeOutcome.consumed rem ms, rl2) => (⟨true, rl.points, rem, (ms + 999) / 1000⟩, rl2)
  | (ConsumeOutcome.rejected ms, rl2) => (⟨false, rl.points, 0, (ms + 999) / 1000⟩, rl2)

/-- A sequence of `rateLimit` calls for one client at the given times. -/
def runCalls (rl : RateLimiterMemory) (ip : String) : List Nat → List RateLimitResult × RateLimiterMemory
  | [] => ([], rl)
  | t :: ts =>
    let step := rateLimit rl ip t
    let rest := runCalls step.2 ip ts
    (step.1 :: rest.1, rest.2)

/-! ## The fallback `SimpleRateLimiter` (rate-limit module, lines 104–145) -/

/-- The in-process fallback limiter: a sliding-window log of request times per
key. -/
structure SimpleRateLimiter where
  maxRequests : Nat
  windowMs : Nat
  requests : List (String × List Nat)
deriving DecidableEq, Repr, Inhabited

/-- Embedding of `SimpleRateLimiter.cleanup` (lines 134–144): refilter every entry, drop the
ones left empty. -/
def SimpleRateLimiter.cleanup (s : SimpleRateLimiter) (nowMs : Nat) : SimpleRateLimiter :=
  ⟨s.maxRequests, s.windowMs,
   (s.requests.map (fun p => (p.1, p.2.filter (fun time => nowMs - time < s.windowMs)))).filter
     (fun p => !p.2.isEmpty)⟩

/-- Embedding of `SimpleRateLimiter.check` (lines 112–132): keep the stored times within the
window, deny when already at capacity, otherwise record `now` and admit;
opportunistic cleanup once more than 10000 keys are tracked. -/
def SimpleRateLimiter.check (s : SimpleRateLimiter) (key : String) (nowMs : Nat) :
    Bool × SimpleRateLimiter :=
  let reqs := (mapGet s.requests key).getD []
  let valid := reqs.filter (fun time => nowMs - time < s.windowMs)
  if s.maxRequests ≤ valid.length then (false, s)
  else
    let s1 : SimpleRateLimiter := ⟨s.maxRequests, s.windowMs, mapSet s.requests key (valid ++ [nowMs])⟩
    (true, if 10000 < s1.requests.length then s1.cleanup nowMs else s1)

/-- A sequence of `check` calls for one key at the given times. -/
def runChecks (s : SimpleRateLimiter) (key : String) : List Nat → List Bool × SimpleRateLimiter
  | [] => ([], s)
  | t :: ts =>
    let step := s.check key t
    let rest := runChecks step.2 key ts
    (step.1 :: rest.1, rest.2)

/-! ## The chat `POST` handler (src/app/api/chat/route.ts, chat part)

The interaction of the handler with the outside world (request JSON parsing, the
Groq call, the Ollama fetch) is abstracted into an environment; everything
else follows the source line by line. -/

/-- What the Groq call produced: a completion (whose first choice may lack a
message content) or a thrown error carrying `error?.message`. -/
inductive GroqResult where
  | reply (content : Option String)
  | err (message : Option String)
deriving DecidableEq, Repr, Inhabited

/-- What the Ollama fetch produced: `response.ok`, `response.status`, and the
`data.message?.content` of the decoded JSON. -/
structure OllamaResult where
  ok : Bool
  status : Nat
  content : Option String
deriving DecidableEq, Repr, Inhabited

/-- Environment of one chat request: the rate-limit verdict, the decoded JSON
body (`none` when `req.json()` throws, which lands in the outer catch), the
`useGroq` deployment test, and the upstream outcomes. -/
structure ChatEnv where
  rl : RateLimitResult
  body : Option ChatBody
  useGroq : Bool
  groq : GroqResult
  ollama : OllamaResult
deriving DecidableEq, Repr, Inhabited

/-- The per-message security loop of the chat handler (route.ts chat part,
lines 38–52): for each message in order, reject on an XSS pattern, then on a
SQL-injection pattern. -/
def securityScan : List ChatMsgIn → Option HttpResponse
  | [] => none
  | m :: rest =>
    if containsXss m.content then
      some ⟨400, RespBody.errorMsg "Message contains potentially harmful content.", []⟩
    else if containsSqlInjection m.content then
      some ⟨400, RespBody.errorMsg "Message contains suspicious patterns.", []⟩
    else securityScan rest

/-- The chat `POST` handler (route.ts chat part, lines 8–160). -/
def chatPOST (env : ChatEnv) : HttpResponse :=
  if env.rl.success = false then
    ⟨429, RespBody.errorMsg
        ("Rate limit exceeded. Please wait " ++ toString env.rl.reset ++ " seconds."),
     getRateLimitHeaders env.rl⟩
  else
    match env.body with
    | none => ⟨500, RespBody.errorMsg "Internal server error", []⟩
    | some b =>
      match chatMessageSchemaParse b with
      | none => ⟨400, RespBody.errorMsg "Invalid request format. Please check your message.", []⟩
      | some msgs =>
        match securityScan msgs with
        | some resp => resp
        | none =>
          if env.useGroq then
            match env.groq with
            | GroqResult.reply (some m) => ⟨200, RespBody.message m, getRateLimitHeaders env.rl⟩
            | GroqResult.reply none => ⟨500, RespBody.errorMsg "No response from AI", []⟩
            | GroqResult.err d =>
              ⟨500, RespBody.errorMsg ("AI Error: " ++ d.getD "Unknown error"), []⟩
          else
            if env.ollama.ok = false then
              ⟨env.ollama.status, RespBody.errorMsg
                  "Ollama is not running. Please start Ollama or deploy to Vercel with Groq API key.", []⟩
            else
              match env.ollama.content with
              | some m => ⟨200, RespBody.message m, getRateLimitHeaders env.rl⟩
              | none => ⟨500, RespBody.errorMsg "No response from AI", []⟩

/-! ## The contact `POST` handler (src/app/api/chat/route.ts, contact part) -/

/-- Environment of one contact request: the rate-limit verdict and the decoded
JSON body (`none` when `req.json()` throws, landing in the outer catch). -/
structure ContactEnv where
  rl : RateLimitResult
  body : Option ContactBody
deriving DecidableEq, Repr, Inhabited

/-- The honeypot test (contact part, line 184): the `website` field is present
as a string and is nonempty after trimming. -/
def honeypotTriggered (b : ContactBody) : Bool :=
  match b.website with
  | some w => decide (0 < (trimChars w.data).length)
  | none => false

/-- The per-input security loop of the contact handler (contact part, lines
209–224), run over the sanitized `[name, email, message]`. -/
def contactSecurityScan : List String → Option HttpResponse
  | [] => none
  | s :: rest =>
    if containsXss s then
      some ⟨400, RespBody.contactMsg "Input contains potentially harmful content.", []⟩
    else if containsSqlInjection s then
      some ⟨400, RespBody.contactMsg "Input contains suspicious patterns.", []⟩
    else contactSecurityScan rest

/-- The contact handler after the honeypot test (contact part, lines 195–248):
schema validation (the source interpolates the zod field messages after
"Validation failed: "; the zod message text is library-generated and is not
modelled), the security loop, the minimum-length re-check on the sanitized
message, then success. -/
def contactAfterHoneypot (rl : RateLimitResult) (b : ContactBody) : HttpResponse :=
  match contactFormSchemaParse b with
  | none => ⟨400, RespBody.contactMsg "Validation failed", []⟩
  | some (n, e, m) =>
    match contactSecurityScan [n, e, m] with
    | some resp => resp
    | none =>
      if m.length < 10 then
        ⟨400, RespBody.contactMsg "Message must be at least 10 characters long.", []⟩
      else ⟨200, RespBody.okTrue, getRateLimitHeaders rl⟩

/-- The contact `POST` handler (route.ts contact part, lines 166–256). -/
def contactPOST (env : ContactEnv) : HttpResponse :=
  if env.rl.success = false then
    ⟨429, RespBody.contactMsg
        ("Too many requests. Please try again in " ++ toString env.rl.reset ++ " seconds."),
     getRateLimitHeaders env.rl⟩
  else
    match env.body with
    | none => ⟨500, RespBody.contactMsg "Unexpected error. Please try again later.", []⟩
    | some b =>
      if honeypotTriggered b then ⟨200, RespBody.okTrue, getRateLimitHeaders env.rl⟩
      else contactAfterHoneypot env.rl b

/-! ## The admission middleware (src/middleware.ts) -/

/-- The startsWith test on strings via their character lists. -/
def startsWithStr (s pre : String) : Bool :=
  startsWithL pre.data s.data

/-- Embedding of `isPublicRoute` (middleware.ts, lines 9–17); `(.*)` in the route patterns
matches any suffix. -/
def isPublicRoute (path : String) : Bool :=
  path == "/" || startsWithStr path "/sign-in" || startsWithStr path "/sign-up" ||
  startsWithStr path "/api/public" || path == "/mcp-security" ||
  startsWithStr path "/security" || startsWithStr path "/mcp-integration"

/-- Embedding of `isAdminRoute` (middleware.ts, lines 19–22). -/
def isAdminRoute (path : String) : Bool :=
  startsWithStr path "/admin" || startsWithStr path "/api/admin"

/-- The admission decision of the middleware; security-header stamping applies
to every passed-through response and is orthogonal to the decision. -/
inductive MwDecision where
  | next
  | redirectSignIn (redirectUrl : String)
  | redirectPortfolio
deriving DecidableEq, Repr, Inhabited

/-- The JavaScript or-default of the role claim (viewer): absent claim or
empty string falls back to `"viewer"`. -/
def roleOrViewer (roleClaim : Option String) : String :=
  match roleClaim with
  | some r => if r == "" then "viewer" else r
  | none => "viewer"

/-- The `clerkMiddleware` callback (middleware.ts, lines 47–93) as a decision
function: public routes pass; admin routes require an identity and a role claim
equal to `"admin"` case-insensitively; every other route requires an identity.
`reqUrl` is `req.url`, attached to the sign-in redirect as `redirect_url`. -/
def clerkMiddlewareDecision (reqUrl path : String) (userId : Option String)
    (roleClaim : Option String) : MwDecision :=
  if isPublicRoute path then MwDecision.next
  else if isAdminRoute path = true ∧ userId = none then MwDecision.redirectSignIn reqUrl
  else if isAdminRoute path = true ∧ lowerStr (roleOrViewer roleClaim) ≠ "admin" then
    MwDecision.redirectPortfolio
  else if userId = none then MwDecision.redirectSignIn reqUrl
  else MwDecision.next

/-! ## General list lemmas used throughout -/

/-- The head surviving a `dropWhile` fails the predicate. -/
theorem dropWhile_head_false {α : Type} (p : α → Bool) :
    ∀ (l : List α) {c : α} {r : List α}, l.dropWhile p = c :: r → p c = false := by
  intro l
  induction l with
  | nil => intro c r h; simp [List.dropWhile] at h
  | cons a t ih =>
    intro c r h
    by_cases ha : p a = true
    · rw [List.dropWhile_cons, if_pos ha] at h
      exact ih h
    · rw [List.dropWhile_cons, if_neg ha] at h
      injection h with h1 h2
      subst h1
      simpa using ha

theorem dropWhile_idem {α : Type} (p : α → Bool) (l : List α) :
    (l.dropWhile p).dropWhile p = l.dropWhile p := by
  cases h : l.dropWhile p with
  | nil => simp
  | cons c r =>
    rw [List.dropWhile_cons, if_neg]
    simp [dropWhile_head_false p l h]

/-- Decomposition of a list around the trailing run dropped from its reverse. -/
theorem eq_reverse_dropWhile_append {α : Type} (p : α → Bool) (x : List α) :
    x = (x.reverse.dropWhile p).reverse ++ (x.reverse.takeWhile p).reverse := by
  conv_lhs => rw [← List.reverse_reverse x, ← List.takeWhile_append_dropWhile p x.reverse]
  rw [List.reverse_append]

/-- Membership in a `dropWhile` implies membership in the list. -/
theorem mem_of_mem_dropWhile {α : Type} (p : α → Bool) {a : α} {l : List α}
    (h : a ∈ l.dropWhile p) : a ∈ l := by
  rw [← List.takeWhile_append_dropWhile p l]
  exact List.mem_append_right _ h

/-- Membership in a trimmed list implies membership in the list. -/
theorem mem_of_mem_trimChars {a : Char} {l : List Char} (h : a ∈ trimChars l) : a ∈ l := by
  unfold trimChars at h
  rw [List.mem_reverse] at h
  have h2 := mem_of_mem_dropWhile _ h
  rw [List.mem_reverse] at h2
  exact mem_of_mem_dropWhile _ h2

/-- A trimmed list is not whitespace-headed, so a further front trim is a no-op. -/
theorem dropWhile_trimChars (l : List Char) :
    (trimChars l).dropWhile isWsChar = trimChars l := by
  cases h : trimChars l with
  | nil => simp
  | cons c t =>
    have hu : l.dropWhile isWsChar
        = (c :: t) ++ ((l.dropWhile isWsChar).reverse.takeWhile isWsChar).reverse := by
      conv_lhs => rw [eq_reverse_dropWhile_append isWsChar (l.dropWhile isWsChar)]
      rw [show ((l.dropWhile isWsChar).reverse.dropWhile isWsChar).reverse = trimChars l from rfl, h]
    have hc : isWsChar c = false := by
      have := dropWhile_head_false isWsChar l (c := c)
          (r := t ++ ((l.dropWhile isWsChar).reverse.takeWhile isWsChar).reverse)
      exact this (by simpa using hu)
    rw [List.dropWhile_cons, if_neg]
    simp [hc]

/-- Trimming is idempotent. -/
theorem trimChars_idem (l : List Char) : trimChars (trimChars l) = trimChars l := by
  show (((trimChars l).dropWhile isWsChar).reverse.dropWhile isWsChar).reverse = trimChars l
  rw [dropWhile_trimChars l]
  have hrev : (trimChars l).reverse = ((l.dropWhile isWsChar).reverse).dropWhile isWsChar := by
    simp [trimChars]
  rw [hrev, dropWhile_idem]
  rfl

/-- The output of the markup stripper never contains an opening angle bracket. -/
theorem stripAux_not_mem_lt : ∀ (l : List Char) (b : Bool), '<' ∉ stripAux b l := by
  intro l
  induction l with
  | nil => intro b; simp [stripAux]
  | cons c cs ih =>
    intro b
    by_cases hb : b
    · subst hb
      by_cases hc : c == '>'
      · simp only [stripAux, if_pos hc, if_pos rfl]
        exact ih false
      · simp only [stripAux, if_neg hc, if_pos rfl]
        exact ih true
    · have hb' : b = false := by simpa using hb
      subst hb'
      by_cases hc : c == '<'
      · simp only [stripAux, if_pos hc]
        exact ih true
      · simp only [stripAux, if_neg hc]
        intro hmem
        rcases List.mem_cons.mp hmem with h | h
        · exact hc (by simp [h.symm])
        · exact ih false h

/-- On input without an opening angle bracket the stripper is the identity. -/
theorem stripAux_eq_self : ∀ {l : List Char}, '<' ∉ l → stripAux false l = l := by
  intro l
  induction l with
  | nil => intro _; rfl
  | cons c cs ih =>
    intro h
    have hc : (c == '<') = false := by
      simp only [beq_eq_false_iff_ne, ne_eq]
      intro hh
      exact h (by simp [hh])
    have hcs : '<' ∉ cs := fun hm => h (List.mem_cons_of_mem _ hm)
    simp [stripAux, hc, ih hcs]

/-- Dropping over a replicate of satisfying elements skips the whole run. -/
theorem dropWhile_replicate_append (p : Char → Bool) (a : Char) (h : p a = true) :
    ∀ (n : Nat) (l : List Char), (List.replicate n a ++ l).dropWhile p = l.dropWhile p := by
  intro n
  induction n with
  | zero => intro l; simp
  | succ k ih =>
    intro l
    rw [List.replicate_succ, List.cons_append, List.dropWhile_cons, if_pos h]
    exact ih l

/-! ## The truncation counterexample to unconditional idempotence of `sanitizeText` -/

/-- A clean 10003-character input: two letters, 10000 spaces, a final letter. -/
def padInput : List Char := 'a' :: 'b' :: (List.replicate 10000 ' ' ++ ['c'])

/-- The first sanitization pass of `padInput` keeps 9998 of the inner spaces. -/
def padMid : List Char := 'a' :: 'b' :: List.replicate 9998 ' '

theorem padInput_no_lt : '<' ∉ padInput := by
  intro h
  simp only [padInput, List.mem_cons, List.mem_append, List.mem_replicate] at h
  rcases h with h | h | h | h
  · exact absurd h (by decide)
  · exact absurd h (by decide)
  · exact absurd h.2 (by decide)
  · exact absurd h (by decide)

theorem padMid_no_lt : '<' ∉ padMid := by
  intro h
  simp only [padMid, List.mem_cons, List.mem_replicate] at h
  rcases h with h | h | h
  · exact absurd h (by decide)
  · exact absurd h (by decide)
  · exact absurd h.2 (by decide)

theorem trim_padInput : trimChars padInput = padInput := by
  have h1 : padInput.dropWhile isWsChar = padInput := by
    rw [show padInput = 'a' :: ('b' :: (List.replicate 10000 ' ' ++ ['c'])) from rfl,
      List.dropWhile_cons, if_neg (by decide)]
  have h2 : padInput.reverse = 'c' :: ('a' :: 'b' :: List.replicate 10000 ' ').reverse := by
    rw [show padInput = ('a' :: 'b' :: List.replicate 10000 ' ') ++ ['c'] from rfl,
      List.reverse_append,
      show (['c'] : List Char).reverse = ['c'] from rfl, List.singleton_append]
  have h3 : (padInput.reverse).dropWhile isWsChar = padInput.reverse := by
    rw [h2, List.dropWhile_cons, if_neg (by decide)]
  unfold trimChars
  rw [h1, h3, List.reverse_reverse]

theorem take_padInput : padInput.take 10000 = padMid := by
  rw [show padInput = 'a' :: 'b' :: (List.replicate 10000 ' ' ++ ['c']) from rfl,
    show (10000 : Nat) = 9998 + 1 + 1 by norm_num,
    List.take_succ_cons, List.take_succ_cons,
    List.take_append_eq_append_take, List.take_replicate, List.length_replicate,
    show (9998 : Nat) - 10000 = 0 by norm_num,
    show min 9998 10000 = 9998 by norm_num,
    List.take_zero, List.append_nil]
  rfl

theorem sanitizeTextL_padInput : sanitizeTextL padInput = padMid := by
  unfold sanitizeTextL
  rw [stripAux_eq_self padInput_no_lt, trim_padInput, take_padInput]

theorem trim_padMid : trimChars padMid = ['a', 'b'] := by
  have h1 : padMid.dropWhile isWsChar = padMid := by
    rw [show padMid = 'a' :: ('b' :: List.replicate 9998 ' ') from rfl,
      List.dropWhile_cons, if_neg (by decide)]
  have h2 : padMid.reverse = List.replicate 9998 ' ' ++ ['b', 'a'] := by
    rw [show padMid = 'a' :: 'b' :: List.replicate 9998 ' ' from rfl,
      List.reverse_cons, List.reverse_cons, List.reverse_replicate, List.append_assoc,
      List.singleton_append]
  unfold trimChars
  rw [h1, h2, dropWhile_replicate_append isWsChar ' ' (by decide),
    List.dropWhile_cons, if_neg (by decide)]
  rfl

theorem sanitizeTextL_padMid : sanitizeTextL padMid = ['a', 'b'] := by
  unfold sanitizeTextL
  rw [stripAux_eq_self padMid_no_lt, trim_padMid]
  rfl

/-- C8 (counterexample): `sanitizeText` is not idempotent on every string.  On
the clean 10003-character input `padInput` the first pass truncates to 10000
characters, exposing a run of trailing spaces; the second pass trims them, so
the results differ. -/
theorem sanitizeText_not_idempotent_over_limit :
    sanitizeText (sanitizeText (String.mk padInput)) ≠ sanitizeText (String.mk padInput) := by
  intro h
  have h1 : sanitizeText (String.mk padInput) = String.mk padMid := by
    show String.mk (sanitizeTextL padInput) = String.mk padMid
    rw [sanitizeTextL_padInput]
  rw [h1] at h
  have h2 : sanitizeText (String.mk padMid) = String.mk ['a', 'b'] := by
    show String.mk (sanitizeTextL padMid) = String.mk ['a', 'b']
    rw [sanitizeTextL_padMid]
  rw [h2] at h
  have h3 : (['a', 'b'] : List Char) = padMid := congrArg String.data h
  have h4 := congrArg List.length h3
  rw [show padMid = 'a' :: 'b' :: List.replicate 9998 ' ' from rfl] at h4
  simp only [List.length_cons, List.length_nil, List.length_replicate] at h4
  omega

/-- C8 (amended): sanitization is idempotent on every input whose cleaned
content (after markup stripping and trimming) is within the 10000-character
truncation limit; in particular a sanitized string of length at most 10000, and
any already-clean string, is a fixed point. -/
theorem sanitizeText_idempotent_within_limit (s : String)
    (h : (trimChars (stripAux false s.data)).length ≤ 10000) :
    sanitizeText (sanitizeText s) = sanitizeText s := by
  have hinner : sanitizeTextL s.data = trimChars (stripAux false s.data) := by
    unfold sanitizeTextL
    exact List.take_of_length_le h
  have hnolt : '<' ∉ trimChars (stripAux false s.data) := fun hm =>
    stripAux_not_mem_lt s.data false (mem_of_mem_trimChars hm)
  have houter : sanitizeTextL (trimChars (stripAux false s.data))
      = trimChars (stripAux false s.data) := by
    unfold sanitizeTextL
    rw [stripAux_eq_self hnolt, trimChars_idem]
    exact List.take_of_length_le h
  have hs : sanitizeText s = String.mk (trimChars (stripAux false s.data)) := by
    unfold sanitizeText
    rw [hinner]
  rw [hs]
  show String.mk (sanitizeTextL (trimChars (stripAux false s.data)))
      = String.mk (trimChars (stripAux false s.data))
  rw [houter]

/-- Witness for the amended C8 statement at a concrete clean string. -/
theorem sanitizeText_idempotent_within_limit_witness :
    sanitizeText (sanitizeText "hello") = sanitizeText "hello" :=
  sanitizeText_idempotent_within_limit "hello" (by decide)

/-! ## Correctness of the e-mail matcher against the declarative regex reading -/

/-- Splitting a list at the first element failing the predicate identifies the
`takeWhile` and `dropWhile` parts. -/
theorem takeWhile_dropWhile_split {α : Type} (p : α → Bool) {a : List α} {x : α} {b : List α}
    (ha : ∀ c ∈ a, p c = true) (hx : p x = false) :
    (a ++ x :: b).takeWhile p = a ∧ (a ++ x :: b).dropWhile p = x :: b := by
  induction a with
  | nil =>
    constructor
    · rw [List.nil_append, List.takeWhile_cons, if_neg (by simp [hx])]
    · rw [List.nil_append, List.dropWhile_cons, if_neg (by simp [hx])]
  | cons c a ih =>
    have hc : p c = true := ha c (by simp)
    obtain ⟨h1, h2⟩ := ih (fun d hd => ha d (by simp [hd]))
    constructor
    · rw [List.cons_append, List.takeWhile_cons, if_pos hc, h1]
    · rw [List.cons_append, List.dropWhile_cons, if_pos hc, h2]

/-- Every element of a `takeWhile` satisfies the predicate. -/
theorem takeWhile_mem_sat {α : Type} (p : α → Bool) (l : List α) :
    ∀ c ∈ l.takeWhile p, p c = true := by
  induction l with
  | nil => simp
  | cons a t ih =>
    by_cases h : p a = true
    · rw [List.takeWhile_cons, if_pos h]
      intro c hc
      rcases List.mem_cons.mp hc with rfl | hc
      · exact h
      · exact ih c hc
    · rw [List.takeWhile_cons, if_neg h]
      simp

/-- Local-part characters are never the at sign. -/
theorem isLocalChar_ne_at {c : Char} (h : isLocalChar c = true) : (c != '@') = true := by
  by_cases hc : c = '@'
  · subst hc
    exact absurd h (by decide)
  · simpa using hc

/-- Alphabetic characters are never the dot. -/
theorem isAlpha_ne_dot {c : Char} (h : c.isAlpha = true) : (c != '.') = true := by
  by_cases hc : c = '.'
  · subst hc
    exact absurd h (by decide)
  · simpa using hc


/-- The Boolean matcher `emailMatch` agrees with the declarative reading of the
source regular expression. -/
theorem emailMatch_iff (l : List Char) : emailMatch l = true ↔ EmailRegex l := by
  constructor
  · intro h
    unfold emailMatch at h
    simp only [Bool.and_eq_true, Bool.not_eq_true'] at h
    obtain ⟨⟨⟨hlocne, hlocall⟩, hdropne⟩, hdom⟩ := h
    cases hdrop : l.dropWhile (fun c => c != '@') with
    | nil => rw [hdrop] at hdropne; simp at hdropne
    | cons a drest =>
      have ha : a = '@' := by
        have := dropWhile_head_false (fun c => c != '@') l hdrop
        simpa using this
      subst ha
      rw [hdrop, List.tail_cons] at hdom
      have hsplit : l = l.takeWhile (fun c => c != '@') ++ '@' :: drest := by
        conv_lhs => rw [← List.takeWhile_append_dropWhile (fun c => c != '@') l]
        rw [hdrop]
      unfold domMatch at hdom
      simp only [Bool.and_eq_true, Bool.not_eq_true'] at hdom
      obtain ⟨⟨⟨⟨hdne, htailne⟩, hmidall⟩, htldlen⟩, htldall⟩ := hdom
      cases hd : drest.reverse.dropWhile (fun c => c != '.') with
      | nil => rw [hd] at hdne; simp at hdne
      | cons b midRev =>
        have hb : b = '.' := by
          have := dropWhile_head_false (fun c => c != '.') drest.reverse hd
          simpa using this
        subst hb
        rw [hd, List.tail_cons] at htailne hmidall
        have hdsplit : drest.reverse
            = drest.reverse.takeWhile (fun c => c != '.') ++ '.' :: midRev := by
          conv_lhs => rw [← List.takeWhile_append_dropWhile (fun c => c != '.') drest.reverse]
          rw [hd]
        have hdrest : drest = midRev.reverse
            ++ '.' :: (drest.reverse.takeWhile (fun c => c != '.')).reverse := by
          conv_lhs =>
            rw [← List.reverse_reverse drest, hdsplit, List.reverse_append, List.reverse_cons,
              List.append_assoc, List.singleton_append]
        refine ⟨l.takeWhile (fun c => c != '@'), midRev.reverse,
          (drest.reverse.takeWhile (fun c => c != '.')).reverse, ?_, ?_, ?_, ?_, ?_, ?_, ?_⟩
        · rw [← hdrest]; exact hsplit
        · intro hnil; rw [hnil] at hlocne; simp at hlocne
        · exact List.all_eq_true.mp hlocall
        · intro hnil
          have : midRev = [] := by simpa using congrArg List.reverse hnil
          rw [this] at htailne; simp at htailne
        · intro c hc
          exact List.all_eq_true.mp hmidall c (List.mem_reverse.mp hc)
        · rw [List.length_reverse]
          exact of_decide_eq_true htldlen
        · intro c hc
          exact List.all_eq_true.mp htldall c (List.mem_reverse.mp hc)
  · rintro ⟨loc, mid, tld, rfl, hloc, hlocall, hmid, hmidall, htldlen, htldall⟩
    have hsplit := takeWhile_dropWhile_split (fun c => c != '@')
      (a := loc) (x := '@') (b := mid ++ '.' :: tld)
      (fun c hc => isLocalChar_ne_at (hlocall c hc)) (by simp)
    have hdomrev : (mid ++ '.' :: tld).reverse = tld.reverse ++ '.' :: mid.reverse := by
      rw [List.reverse_append, List.reverse_cons, List.append_assoc, List.singleton_append]
    have hdsplit := takeWhile_dropWhile_split (fun c => c != '.')
      (a := tld.reverse) (x := '.') (b := mid.reverse)
      (fun c hc => isAlpha_ne_dot (htldall c (List.mem_reverse.mp hc))) (by simp)
    unfold emailMatch
    rw [hsplit.1, hsplit.2, List.tail_cons]
    unfold domMatch
    rw [hdomrev, hdsplit.1, hdsplit.2, List.tail_cons]
    have e1 : loc.isEmpty = false := by
      cases loc with
      | nil => exact absurd rfl hloc
      | cons c cs => rfl
    have e5 : mid.reverse.isEmpty = false := by
      cases hm : mid.reverse with
      | nil => exact absurd (by simpa using congrArg List.reverse hm) hmid
      | cons c cs => rfl
    have e2 : loc.all isLocalChar = true := List.all_eq_true.mpr hlocall
    have e6 : mid.reverse.all isDomainChar = true :=
      List.all_eq_true.mpr (fun c hc => hmidall c (List.mem_reverse.mp hc))
    have e7 : decide (2 ≤ tld.reverse.length) = true :=
      decide_eq_true (by rw [List.length_reverse]; exact htldlen)
    have e8 : tld.reverse.all Char.isAlpha = true :=
      List.all_eq_true.mpr (fun c hc => htldall c (List.mem_reverse.mp hc))
    simp [e1, e2, e5, e6, e7, e8]
    exact htldlen

/-- C7: `sanitizeEmail` maps `"  USER@Example.COM "` to `"user@example.com"`
and `"not-an-email"` to `""`; in general it sanitizes its input, then returns
the lower-cased sanitized value when that value matches the e-mail pattern
(`localpart@domain` with a TLD of two or more letters) and the empty string
otherwise. -/
theorem sanitizeEmail_spec (s : String) :
    sanitizeEmail "  USER@Example.COM " = "user@example.com"
    ∧ sanitizeEmail "not-an-email" = ""
    ∧ (EmailRegex (sanitizeText s).data → sanitizeEmail s = lowerStr (sanitizeText s))
    ∧ (¬ EmailRegex (sanitizeText s).data → sanitizeEmail s = "") := by
  refine ⟨by decide, by decide, ?_, ?_⟩
  · intro h
    unfold sanitizeEmail
    rw [if_pos ((emailMatch_iff (sanitizeText s).data).mpr h)]
  · intro h
    unfold sanitizeEmail
    rw [if_neg (fun hm => h ((emailMatch_iff (sanitizeText s).data).mp hm))]

/-- Witness for C7: the general clauses applied at concrete inputs. -/
theorem sanitizeEmail_spec_witness : sanitizeEmail "a@b.io" = "a@b.io" := by
  have h := (sanitizeEmail_spec "a@b.io").2.2.1
    ((emailMatch_iff (sanitizeText "a@b.io").data).mp (by decide))
  rw [h]
  decide

/-! ## Admin route admission (middleware.ts) -/

/-- C3: on a non-public admin route, a request without a resolved identity is
redirected to sign-in with the original URL as the `redirect_url` target; with
an identity, the role claim (defaulting to `"viewer"` when absent or empty) is
compared case-insensitively to `"admin"`: an admin role passes through, any
other role is redirected to the portfolio landing page. -/
theorem admin_route_admission (reqUrl path : String) (userId roleClaim : Option String)
    (hadmin : isAdminRoute path = true) (hpub : isPublicRoute path = false) :
    (userId = none →
      clerkMiddlewareDecision reqUrl path userId roleClaim = MwDecision.redirectSignIn reqUrl)
    ∧ (userId ≠ none → lowerStr (roleOrViewer roleClaim) = "admin" →
      clerkMiddlewareDecision reqUrl path userId roleClaim = MwDecision.next)
    ∧ (userId ≠ none → lowerStr (roleOrViewer roleClaim) ≠ "admin" →
      clerkMiddlewareDecision reqUrl path userId roleClaim = MwDecision.redirectPortfolio) := by
  refine ⟨?_, ?_, ?_⟩
  · intro hu
    unfold clerkMiddlewareDecision
    rw [if_neg (by simp [hpub]), if_pos ⟨hadmin, hu⟩]
  · intro hu hrole
    unfold clerkMiddlewareDecision
    rw [if_neg (by simp [hpub]), if_neg (by simp [hu]), if_neg (by simp [hrole]),
      if_neg (by simp [hu])]
  · intro hu hrole
    unfold clerkMiddlewareDecision
    rw [if_neg (by simp [hpub]), if_neg (by simp [hu]), if_pos ⟨hadmin, hrole⟩]

/-- Witness for C3 on the path `/admin/x`: mixed-case `"Admin"` is admitted,
`"editor"` is sent to the portfolio page, and a missing identity is sent to
sign-in carrying the original URL. -/
theorem admin_route_admission_witness :
    clerkMiddlewareDecision "https://s/admin/x" "/admin/x" (some "u") (some "Admin")
      = MwDecision.next
    ∧ clerkMiddlewareDecision "https://s/admin/x" "/admin/x" (some "u") (some "editor")
      = MwDecision.redirectPortfolio
    ∧ clerkMiddlewareDecision "https://s/admin/x" "/admin/x" none none
      = MwDecision.redirectSignIn "https://s/admin/x" :=
  ⟨(admin_route_admission "https://s/admin/x" "/admin/x" (some "u") (some "Admin")
      (by decide) (by decide)).2.1 (by decide) (by decide),
   (admin_route_admission "https://s/admin/x" "/admin/x" (some "u") (some "editor")
      (by decide) (by decide)).2.2 (by decide) (by decide),
   (admin_route_admission "https://s/admin/x" "/admin/x" none none
      (by decide) (by decide)).1 rfl⟩

/-! ## Chat schema bounds (C6) -/

/-- C6: a chat body with 0 messages is rejected by the handler with status 400,
a body with 51 messages is rejected with status 400, and a body of exactly 50
messages, each with a valid role and raw content of length 1 to 5000, passes
the schema check. -/
theorem chat_schema_bounds (e0 e51 : ChatEnv) (b0 b51 b50 : ChatBody)
    (h0s : e0.rl.success = true) (h0b : e0.body = some b0) (h0len : b0.messages.length = 0)
    (h51s : e51.rl.success = true) (h51b : e51.body = some b51)
    (h51len : b51.messages.length = 51)
    (h50len : b50.messages.length = 50)
    (h50valid : ∀ m ∈ b50.messages,
      validRole m.role = true ∧ 1 ≤ m.content.length ∧ m.content.length ≤ 5000) :
    chatPOST e0
      = ⟨400, RespBody.errorMsg "Invalid request format. Please check your message.", []⟩
    ∧ chatPOST e51
      = ⟨400, RespBody.errorMsg "Invalid request format. Please check your message.", []⟩
    ∧ (chatMessageSchemaParse b50).isSome = true := by
  have hp0 : chatMessageSchemaParse b0 = none := by
    unfold chatMessageSchemaParse
    rw [if_neg]
    intro hcon
    obtain ⟨h1, _⟩ := hcon
    omega
  have hp51 : chatMessageSchemaParse b51 = none := by
    unfold chatMessageSchemaParse
    rw [if_neg]
    intro hcon
    obtain ⟨_, h2, _⟩ := hcon
    omega
  refine ⟨?_, ?_, ?_⟩
  · unfold chatPOST
    rw [if_neg (by simp [h0s])]
    simp only [h0b, hp0]
  · unfold chatPOST
    rw [if_neg (by simp [h51s])]
    simp only [h51b, hp51]
  · unfold chatMessageSchemaParse
    rw [if_pos ⟨by omega, by omega, h50valid⟩]
    rfl

/-- Witness for C6 at concrete bodies of 0, 51 and 50 messages. -/
theorem chat_schema_bounds_witness :
    chatPOST ⟨⟨true, 10, 9, 60⟩, some ⟨[]⟩, true, GroqResult.reply (some "k"), ⟨true, 200, some "k"⟩⟩
      = ⟨400, RespBody.errorMsg "Invalid request format. Please check your message.", []⟩
    ∧ chatPOST ⟨⟨true, 10, 9, 60⟩, some ⟨List.replicate 51 ⟨"user", "hi"⟩⟩, true,
        GroqResult.reply (some "k"), ⟨true, 200, some "k"⟩⟩
      = ⟨400, RespBody.errorMsg "Invalid request format. Please check your message.", []⟩
    ∧ (chatMessageSchemaParse ⟨List.replicate 50 ⟨"user", "hi"⟩⟩).isSome = true :=
  chat_schema_bounds
    ⟨⟨true, 10, 9, 60⟩, some ⟨[]⟩, true, GroqResult.reply (some "k"), ⟨true, 200, some "k"⟩⟩
    ⟨⟨true, 10, 9, 60⟩, some ⟨List.replicate 51 ⟨"user", "hi"⟩⟩, true,
      GroqResult.reply (some "k"), ⟨true, 200, some "k"⟩⟩
    ⟨[]⟩ ⟨List.replicate 51 ⟨"user", "hi"⟩⟩ ⟨List.replicate 50 ⟨"user", "hi"⟩⟩
    rfl rfl (by decide) rfl rfl (by decide) (by decide) (by decide)

/-! ## Heuristic checks run on sanitized content (C10) -/

/-- C10: the schema transform hands the security loop the sanitized message
contents, not the raw client input, and when every sanitized content is free of
the heuristic XSS and SQL-injection patterns the security loop rejects
nothing — even if the raw content matched a pattern that tag stripping
removes. -/
theorem security_checks_on_sanitized_content (b : ChatBody) (msgs : List ChatMsgIn)
    (hp : chatMessageSchemaParse b = some msgs)
    (hclean : ∀ m ∈ b.messages, containsXss (sanitizeText m.content) = false
      ∧ containsSqlInjection (sanitizeText m.content) = false) :
    msgs = b.messages.map (fun m => ⟨m.role, sanitizeText m.content⟩)
    ∧ securityScan msgs = none := by
  have hmap : msgs = b.messages.map (fun m => ⟨m.role, sanitizeText m.content⟩) := by
    unfold chatMessageSchemaParse at hp
    split at hp
    · exact (Option.some.injEq .. ▸ hp).symm
    · exact absurd hp (by simp)
  refine ⟨hmap, ?_⟩
  rw [hmap]
  have key : ∀ (L : List ChatMsgIn),
      (∀ m ∈ L, containsXss (sanitizeText m.content) = false
        ∧ containsSqlInjection (sanitizeText m.content) = false) →
      securityScan (L.map fun m => ⟨m.role, sanitizeText m.content⟩) = none := by
    intro L
    induction L with
    | nil => intro _; rfl
    | cons m rest ih =>
      intro hcl
      have hm := hcl m (by simp)
      simp only [List.map_cons]
      unfold securityScan
      rw [if_neg (by simp [hm.1]), if_neg (by simp [hm.2])]
      exact ih (fun x hx => hcl x (by simp [hx]))
  exact key b.messages hclean

/-- Witness for C10: a bare script tag wrapping benign text is flagged raw but
its sanitized form passes the loop. -/
theorem security_checks_on_sanitized_content_witness :
    ([⟨"user", "hello here"⟩] : List ChatMsgIn)
      = (⟨[⟨"user", "<script>hello here</script>"⟩]⟩ : ChatBody).messages.map
          (fun m => ⟨m.role, sanitizeText m.content⟩)
    ∧ securityScan [⟨"user", "hello here"⟩] = none
    ∧ containsXss "<script>hello here</script>" = true := by
  have h := security_checks_on_sanitized_content
    ⟨[⟨"user", "<script>hello here</script>"⟩]⟩ [⟨"user", "hello here"⟩]
    (by decide) (by decide)
  exact ⟨h.1, h.2, by decide⟩

/-! ## Contact honeypot (C4, C9) -/

/-- C4 (counterexample): a contact submission whose `website` field is the
nonempty all-whitespace string " " does not take the honeypot fast path — the
handler trims the field before testing it — so with an invalid (empty) name the
response is a 400 validation failure, not 200 with `{ok: true}`. -/
theorem contact_nonempty_website_not_always_fastpath :
    (contactPOST ⟨⟨true, 5, 4, 120⟩, some ⟨"", "a@b.com", "hello there friend", some " "⟩⟩).status
      = 400
    ∧ (contactPOST ⟨⟨true, 5, 4, 120⟩,
        some ⟨"", "a@b.com", "hello there friend", some " "⟩⟩).body ≠ RespBody.okTrue := by
  constructor
  · decide
  · decide

/-- C4 (amended): for every contact submission that is not rate-limited and
whose `website` field is nonempty after trimming, the handler returns 200 with
`{ok: true}` and the rate-limit headers, and performs no further processing:
the response does not depend on the name, e-mail or message fields. -/
theorem contact_honeypot_fastpath (env : ContactEnv) (b : ContactBody) (w : String)
    (hrl : env.rl.success = true) (hb : env.body = some b) (hw : b.website = some w)
    (hnz : 0 < (trimChars w.data).length) :
    contactPOST env = ⟨200, RespBody.okTrue, getRateLimitHeaders env.rl⟩
    ∧ ∀ (n e m : String),
        contactPOST ⟨env.rl, some ⟨n, e, m, b.website⟩⟩
          = ⟨200, RespBody.okTrue, getRateLimitHeaders env.rl⟩ := by
  have hhp : honeypotTriggered b = true := by
    unfold honeypotTriggered
    simp only [hw]
    exact decide_eq_true hnz
  constructor
  · unfold contactPOST
    rw [if_neg (by simp [hrl])]
    simp only [hb, hhp, if_true]
  · intro n e m
    have hhp2 : honeypotTriggered ⟨n, e, m, b.website⟩ = true := by
      unfold honeypotTriggered
      simp only [hw]
      exact decide_eq_true hnz
    unfold contactPOST
    rw [if_neg (by simp [hrl])]
    simp only [hhp2, if_true]

/-- Witness for the amended C4 statement at a concrete honeypot submission. -/
theorem contact_honeypot_fastpath_witness :
    contactPOST ⟨⟨true, 5, 4, 120⟩,
        some ⟨"Jo", "a@b.com", "hello there friend", some "http://spam"⟩⟩
      = ⟨200, RespBody.okTrue, getRateLimitHeaders ⟨true, 5, 4, 120⟩⟩
    ∧ contactPOST ⟨⟨true, 5, 4, 120⟩, some ⟨"", "x", "y", some "http://spam"⟩⟩
      = ⟨200, RespBody.okTrue, getRateLimitHeaders ⟨true, 5, 4, 120⟩⟩ := by
  have h := contact_honeypot_fastpath
    ⟨⟨true, 5, 4, 120⟩, some ⟨"Jo", "a@b.com", "hello there friend", some "http://spam"⟩⟩
    ⟨"Jo", "a@b.com", "hello there friend", some "http://spam"⟩ "http://spam"
    rfl rfl rfl (by decide)
  exact ⟨h.1, h.2 "" "x" "y"⟩

/-- C9: a `website` field that is a nonempty string of only whitespace does not
trigger the honeypot — the handler trims before testing — so the submission
proceeds to schema validation and normal processing, exactly as if the field
were absent. -/
theorem contact_honeypot_trims_whitespace (env : ContactEnv) (b : ContactBody) (w : String)
    (hrl : env.rl.success = true) (hb : env.body = some b) (hw : b.website = some w)
    (hpos : 0 < w.length) (hws : (trimChars w.data).length = 0) :
    honeypotTriggered b = false
    ∧ contactPOST env = contactAfterHoneypot env.rl b
    ∧ contactPOST env = contactPOST ⟨env.rl, some ⟨b.name, b.email, b.message, none⟩⟩ := by
  have hhp : honeypotTriggered b = false := by
    unfold honeypotTriggered
    simp only [hw, hws]
    rfl
  have hhpn : honeypotTriggered ⟨b.name, b.email, b.message, none⟩ = false := rfl
  have hpar : contactFormSchemaParse ⟨b.name, b.email, b.message, none⟩
      = contactFormSchemaParse b := by
    unfold contactFormSchemaParse
    rfl
  refine ⟨hhp, ?_, ?_⟩
  · unfold contactPOST
    rw [if_neg (by simp [hrl])]
    simp [hb, hhp]
  · unfold contactPOST
    simp [hb, hhp, hhpn, hrl, hpar]
    unfold contactAfterHoneypot
    rw [hpar]

/-- Witness for C9: the whitespace honeypot value " " together with an invalid
name reaches validation and yields a 400 response instead of the fast path. -/
theorem contact_honeypot_trims_whitespace_witness :
    honeypotTriggered ⟨"", "a@b.com", "hello there friend", some " "⟩ = false
    ∧ contactPOST ⟨⟨true, 5, 4, 120⟩, some ⟨"", "a@b.com", "hello there friend", some " "⟩⟩
      = contactAfterHoneypot ⟨true, 5, 4, 120⟩ ⟨"", "a@b.com", "hello there friend", some " "⟩
    ∧ contactPOST ⟨⟨true, 5, 4, 120⟩, some ⟨"", "a@b.com", "hello there friend", some " "⟩⟩
      = contactPOST ⟨⟨true, 5, 4, 120⟩, some ⟨"", "a@b.com", "hello there friend", none⟩⟩
    ∧ (contactPOST ⟨⟨true, 5, 4, 120⟩,
        some ⟨"", "a@b.com", "hello there friend", some " "⟩⟩).status = 400 := by
  have h := contact_honeypot_trims_whitespace
    ⟨⟨true, 5, 4, 120⟩, some ⟨"", "a@b.com", "hello there friend", some " "⟩⟩
    ⟨"", "a@b.com", "hello there friend", some " "⟩ " " rfl rfl rfl (by decide) (by decide)
  exact ⟨h.1, h.2.1, h.2.2, by decide⟩

/-! ## Error response shapes of the chat handler (C2) -/

/-- The fixed short error bodies the chat handler can produce. -/
def fixedChatErrorBodies : List RespBody :=
  [RespBody.errorMsg "Internal server error",
   RespBody.errorMsg "Invalid request format. Please check your message.",
   RespBody.errorMsg "Message contains potentially harmful content.",
   RespBody.errorMsg "Message contains suspicious patterns.",
   RespBody.errorMsg "No response from AI",
   RespBody.errorMsg
     "Ollama is not running. Please start Ollama or deploy to Vercel with Groq API key."]

/-- A response body of fixed form: one of the listed short messages, or the
rate-limit message, whose only variable part is the reset-seconds number. -/
def FixedFormChatError (r : HttpResponse) : Prop :=
  r.body ∈ fixedChatErrorBodies
  ∨ ∃ n : Nat, r.body
      = RespBody.errorMsg ("Rate limit exceeded. Please wait " ++ toString n ++ " seconds.")

/-- The security loop only ever produces the two generic 400 rejections. -/
theorem securityScan_cases : ∀ (msgs : List ChatMsgIn) (r : HttpResponse),
    securityScan msgs = some r →
    r = ⟨400, RespBody.errorMsg "Message contains potentially harmful content.", []⟩
    ∨ r = ⟨400, RespBody.errorMsg "Message contains suspicious patterns.", []⟩ := by
  intro msgs
  induction msgs with
  | nil => intro r h; simp [securityScan] at h
  | cons m rest ih =>
    intro r h
    unfold securityScan at h
    by_cases h1 : containsXss m.content = true
    · rw [if_pos h1] at h
      injection h with h2
      exact Or.inl h2.symm
    · rw [if_neg h1] at h
      by_cases h2 : containsSqlInjection m.content = true
      · rw [if_pos h2] at h
        injection h with h3
        exact Or.inr h3.symm
      · rw [if_neg h2] at h
        exact ih r h

/-- C2 (counterexample): an upstream Groq failure is forwarded verbatim — the
500 body is "AI Error: " followed by the upstream exception message — and a
non-OK Ollama reply mirrors the upstream HTTP status (here 503), so error
responses are not confined to fixed short messages with status 400, 429 or
500. -/
theorem chat_upstream_error_detail_leak :
    bodyText (chatPOST ⟨⟨true, 10, 9, 60⟩, some ⟨[⟨"user", "Hi there"⟩]⟩, true,
        GroqResult.err (some "connect ECONNREFUSED 10.77.0.5"), ⟨true, 200, some "x"⟩⟩)
      = "AI Error: " ++ "connect ECONNREFUSED 10.77.0.5"
    ∧ (chatPOST ⟨⟨true, 10, 9, 60⟩, some ⟨[⟨"user", "Hi there"⟩]⟩, true,
        GroqResult.err (some "connect ECONNREFUSED 10.77.0.5"), ⟨true, 200, some "x"⟩⟩).status
      = 500
    ∧ (chatPOST ⟨⟨true, 10, 9, 60⟩, some ⟨[⟨"user", "Hi there"⟩]⟩, false,
        GroqResult.reply none, ⟨false, 503, none⟩⟩).status = 503 :=
  ⟨by decide, by decide, by decide⟩

/-- C2 (amended): every non-200 chat response has status 400, 429, 500 or the
mirrored Ollama upstream status, and its body is one of the fixed short
messages — except on the Groq failure path, where the 500 body embeds the
upstream exception message after "AI Error: ". -/
theorem chat_error_responses_shape (env : ChatEnv) (h : (chatPOST env).status ≠ 200) :
    ((chatPOST env).status = 400 ∨ (chatPOST env).status = 429 ∨ (chatPOST env).status = 500
      ∨ (chatPOST env).status = env.ollama.status)
    ∧ (FixedFormChatError (chatPOST env)
      ∨ ∃ d : Option String, env.groq = GroqResult.err d
          ∧ (chatPOST env).body
            = RespBody.errorMsg ("AI Error: " ++ d.getD "Unknown error")) := by
  obtain ⟨rl, body, useGroq, groq, ollama⟩ := env
  by_cases hrl : rl.success = false
  · refine ⟨Or.inr (Or.inl ?_), Or.inl (Or.inr ⟨rl.reset, ?_⟩)⟩
    · simp [chatPOST, hrl]
    · simp [chatPOST, hrl]
  · cases body with
    | none =>
      refine ⟨Or.inr (Or.inr (Or.inl ?_)), Or.inl (Or.inl ?_)⟩
      · simp [chatPOST, hrl]
      · simp [chatPOST, hrl, fixedChatErrorBodies]
    | some b =>
      cases hparse : chatMessageSchemaParse b with
      | none =>
        refine ⟨Or.inl ?_, Or.inl (Or.inl ?_)⟩
        · simp [chatPOST, hrl, hparse]
        · simp [chatPOST, hrl, hparse, fixedChatErrorBodies]
      | some msgs =>
        cases hscan : securityScan msgs with
        | some resp =>
          rcases securityScan_cases msgs resp hscan with hr | hr
          · subst hr
            refine ⟨Or.inl ?_, Or.inl (Or.inl ?_)⟩
            · simp [chatPOST, hrl, hparse, hscan]
            · simp [chatPOST, hrl, hparse, hscan, fixedChatErrorBodies]
          · subst hr
            refine ⟨Or.inl ?_, Or.inl (Or.inl ?_)⟩
            · simp [chatPOST, hrl, hparse, hscan]
            · simp [chatPOST, hrl, hparse, hscan, fixedChatErrorBodies]
        | none =>
          cases useGroq with
          | true =>
            cases groq with
            | reply c =>
              cases c with
              | some m =>
                simp [chatPOST, hrl, hparse, hscan] at h
              | none =>
                refine ⟨Or.inr (Or.inr (Or.inl ?_)), Or.inl (Or.inl ?_)⟩
                · simp [chatPOST, hrl, hparse, hscan]
                · simp [chatPOST, hrl, hparse, hscan, fixedChatErrorBodies]
            | err d =>
              refine ⟨Or.inr (Or.inr (Or.inl ?_)), Or.inr ⟨d, rfl, ?_⟩⟩
              · simp [chatPOST, hrl, hparse, hscan]
              · simp [chatPOST, hrl, hparse, hscan]
          | false =>
            obtain ⟨ok, ostatus, ocontent⟩ := ollama
            cases ok with
            | false =>
              refine ⟨Or.inr (Or.inr (Or.inr ?_)), Or.inl (Or.inl ?_)⟩
              · simp [chatPOST, hrl, hparse, hscan]
              · simp [chatPOST, hrl, hparse, hscan, fixedChatErrorBodies]
            | true =>
              cases ocontent with
              | some m =>
                simp [chatPOST, hrl, hparse, hscan] at h
              | none =>
                refine ⟨Or.inr (Or.inr (Or.inl ?_)), Or.inl (Or.inl ?_)⟩
                · simp [chatPOST, hrl, hparse, hscan]
                · simp [chatPOST, hrl, hparse, hscan, fixedChatErrorBodies]

/-- Witness for the amended C2 statement at a rate-limited request. -/
theorem chat_error_responses_shape_witness :
    ((chatPOST ⟨⟨false, 10, 0, 30⟩, some ⟨[]⟩, true, GroqResult.reply none,
          ⟨true, 200, none⟩⟩).status = 400
      ∨ (chatPOST ⟨⟨false, 10, 0, 30⟩, some ⟨[]⟩, true, GroqResult.reply none,
          ⟨true, 200, none⟩⟩).status = 429
      ∨ (chatPOST ⟨⟨false, 10, 0, 30⟩, some ⟨[]⟩, true, GroqResult.reply none,
          ⟨true, 200, none⟩⟩).status = 500
      ∨ (chatPOST ⟨⟨false, 10, 0, 30⟩, some ⟨[]⟩, true, GroqResult.reply none,
          ⟨true, 200, none⟩⟩).status = 200)
    ∧ (FixedFormChatError (chatPOST ⟨⟨false, 10, 0, 30⟩, some ⟨[]⟩, true,
          GroqResult.reply none, ⟨true, 200, none⟩⟩)
      ∨ ∃ d : Option String,
          (⟨⟨false, 10, 0, 30⟩, some ⟨[]⟩, true, GroqResult.reply none,
            ⟨true, 200, none⟩⟩ : ChatEnv).groq = GroqResult.err d
          ∧ (chatPOST ⟨⟨false, 10, 0, 30⟩, some ⟨[]⟩, true, GroqResult.reply none,
              ⟨true, 200, none⟩⟩).body
            = RespBody.errorMsg ("AI Error: " ++ d.getD "Unknown error")) :=
  chat_error_responses_shape
    ⟨⟨false, 10, 0, 30⟩, some ⟨[]⟩, true, GroqResult.reply none, ⟨true, 200, none⟩⟩
    (by decide)

/-! ## Step lemmas for the primary rate limiter -/

/-- Lookup after update at the same key. -/
theorem mapGet_mapSet_self {α : Type} (s : List (String × α)) (k : String) (v : α) :
    mapGet (mapSet s k v) k = some v := by
  induction s with
  | nil => simp [mapSet, mapGet]
  | cons p rest ih =>
    obtain ⟨k1, v1⟩ := p
    by_cases hk : k1 = k
    · subst hk
      simp [mapSet, mapGet]
    · simp only [mapSet, if_neg hk, mapGet]
      exact ih

/-- A fresh client consuming against policy `N`/`D` is admitted and initialized. -/
theorem consume_fresh (N D : Nat) (store : List (String × RLRecord)) (ip : String) (t : Nat)
    (hget : mapGet store ip = none) (hN : 0 < N) :
    RateLimiterMemory.consume ⟨N, D, store⟩ ip t
      = (ConsumeOutcome.consumed ((N : Int) - 1) D,
         ⟨N, D, mapSet store ip ⟨(N : Int) - 1, t⟩⟩) := by
  unfold RateLimiterMemory.consume
  simp only [hget]
  rw [if_pos (by exact_mod_cast hN : (0 : Int) < (N : Int))]
  simp [Nat.add_sub_cancel_left]

/-- A client with points left inside its window is admitted and decremented. -/
theorem consume_active (N D : Nat) (store : List (String × RLRecord)) (ip : String)
    (r : Int) (w t : Nat) (hget : mapGet store ip = some ⟨r, w⟩) (ht : t < w + D)
    (hr : 0 < r) :
    RateLimiterMemory.consume ⟨N, D, store⟩ ip t
      = (ConsumeOutcome.consumed (r - 1) (w + D - t),
         ⟨N, D, mapSet store ip ⟨r - 1, w⟩⟩) := by
  unfold RateLimiterMemory.consume
  simp only [hget]
  rw [if_neg (by omega : ¬ w + D ≤ t)]
  rw [if_pos hr]

/-- An exhausted client inside its window is rejected with the time to the end
of the window, and the state is unchanged. -/
theorem consume_exhausted (N D : Nat) (store : List (String × RLRecord)) (ip : String)
    (r : Int) (w t : Nat) (hget : mapGet store ip = some ⟨r, w⟩) (ht : t < w + D)
    (hr : r ≤ 0) :
    RateLimiterMemory.consume ⟨N, D, store⟩ ip t
      = (ConsumeOutcome.rejected (w + D - t), ⟨N, D, store⟩) := by
  unfold RateLimiterMemory.consume
  simp only [hget]
  rw [if_neg (by omega : ¬ w + D ≤ t)]
  rw [if_neg (by omega : ¬ (0 : Int) < r)]

/-- After the window has elapsed the record is reinitialized to the full
budget and the call is admitted. -/
theorem consume_stale (N D : Nat) (store : List (String × RLRecord)) (ip : String)
    (r : Int) (w t : Nat) (hget : mapGet store ip = some ⟨r, w⟩) (ht : w + D ≤ t)
    (hN : 0 < N) :
    RateLimiterMemory.consume ⟨N, D, store⟩ ip t
      = (ConsumeOutcome.consumed ((N : Int) - 1) D,
         ⟨N, D, mapSet store ip ⟨(N : Int) - 1, t⟩⟩) := by
  unfold RateLimiterMemory.consume
  simp only [hget]
  rw [if_pos ht]
  rw [if_pos (by exact_mod_cast hN : (0 : Int) < (N : Int))]
  simp [Nat.add_sub_cancel_left]

/-- Within one window of the primary limiter, a client holding `r` remaining
points sees exactly `r` further admissions: the admission pattern over the
call sequence is `min r len` successes followed by denials, every denial
reports zero remaining points, and every denied reset time is at most the
window length (rounded up to seconds). -/
theorem runCalls_in_window (N D : Nat) (ip : String) (w : Nat) :
    ∀ (ts : List Nat) (store : List (String × RLRecord)) (r : Int),
      0 ≤ r →
      mapGet store ip = some ⟨r, w⟩ →
      (∀ t ∈ ts, w ≤ t ∧ t < w + D) →
      ((runCalls ⟨N, D, store⟩ ip ts).1.map (fun q => q.success)
        = List.replicate (min r.toNat ts.length) true
          ++ List.replicate (ts.length - r.toNat) false)
      ∧ (∀ q ∈ (runCalls ⟨N, D, store⟩ ip ts).1,
          q.success = false → q.remaining = 0 ∧ q.reset ≤ (D + 999) / 1000) := by
  intro ts
  induction ts with
  | nil =>
    intro store r hr hget hin
    exact ⟨by simp [runCalls], by simp [runCalls]⟩
  | cons t ts ih =>
    intro store r hr hget hin
    obtain ⟨hw, hlt⟩ := hin t (by simp)
    by_cases hpos : 0 < r
    · have hstep : rateLimit ⟨N, D, store⟩ ip t
          = (⟨true, N, r - 1, (w + D - t + 999) / 1000⟩,
             ⟨N, D, mapSet store ip ⟨r - 1, w⟩⟩) := by
        unfold rateLimit
        rw [consume_active N D store ip r w t hget hlt hpos]
      have ihres := ih (mapSet store ip ⟨r - 1, w⟩) (r - 1) (by omega)
        (mapGet_mapSet_self store ip ⟨r - 1, w⟩) (fun x hx => hin x (by simp [hx]))
      have hrun : runCalls ⟨N, D, store⟩ ip (t :: ts)
          = (⟨true, N, r - 1, (w + D - t + 999) / 1000⟩
              :: (runCalls ⟨N, D, mapSet store ip ⟨r - 1, w⟩⟩ ip ts).1,
             (runCalls ⟨N, D, mapSet store ip ⟨r - 1, w⟩⟩ ip ts).2) := by
        simp only [runCalls, hstep]
      constructor
      · rw [hrun]
        simp only [List.map_cons]
        rw [ihres.1]
        have hk : min r.toNat (ts.length + 1) = min (r - 1).toNat ts.length + 1 := by omega
        have hk2 : ts.length + 1 - r.toNat = ts.length - (r - 1).toNat := by omega
        rw [List.length_cons, hk, hk2, List.replicate_succ, List.cons_append]
      · intro q hq hqf
        rw [hrun] at hq
        rcases List.mem_cons.mp hq with rfl | hq
        · simp at hqf
        · exact ihres.2 q hq hqf
    · have hr0 : r = 0 := by omega
      subst hr0
      have hstep : rateLimit ⟨N, D, store⟩ ip t
          = (⟨false, N, 0, (w + D - t + 999) / 1000⟩, ⟨N, D, store⟩) := by
        unfold rateLimit
        rw [consume_exhausted N D store ip 0 w t hget hlt le_rfl]
      have ihres := ih store 0 le_rfl hget (fun x hx => hin x (by simp [hx]))
      have hrun : runCalls ⟨N, D, store⟩ ip (t :: ts)
          = (⟨false, N, 0, (w + D - t + 999) / 1000⟩ :: (runCalls ⟨N, D, store⟩ ip ts).1,
             (runCalls ⟨N, D, store⟩ ip ts).2) := by
        simp only [runCalls, hstep]
      constructor
      · rw [hrun]
        simp only [List.map_cons]
        rw [ihres.1]
        simp [List.replicate_succ]
      · intro q hq hqf
        rw [hrun] at hq
        rcases List.mem_cons.mp hq with rfl | hq
        · refine ⟨rfl, ?_⟩
          show (w + D - t + 999) / 1000 ≤ (D + 999) / 1000
          exact Nat.div_le_div_right (by omega)
        · exact ihres.2 q hq hqf

/-! ## The fallback limiter within one window -/

/-- For the in-source `SimpleRateLimiter`, when every stored and incoming
request time lies within one window length of a base time, a key holding
`stored` logged requests is admitted exactly `maxRequests - stored.length`
more times and denied afterwards. -/
theorem runChecks_in_window (M D : Nat) (key : String) (u0 : Nat) (hD : 0 < D) :
    ∀ (ts : List Nat) (stored : List Nat) (reqs : List (String × List Nat)),
      ((reqs = [] ∧ stored = []) ∨ reqs = [(key, stored)]) →
      (∀ x ∈ stored, u0 ≤ x ∧ x - u0 < D) →
      (∀ t ∈ ts, u0 ≤ t ∧ t - u0 < D) →
      (runChecks ⟨M, D, reqs⟩ key ts).1
        = List.replicate (min (M - stored.length) ts.length) true
          ++ List.replicate (ts.length - (M - stored.length)) false := by
  intro ts
  induction ts with
  | nil =>
    intro stored reqs _ _ _
    simp [runChecks]
  | cons t ts ih =>
    intro stored reqs hreq hstored hts
    obtain ⟨htu, htd⟩ := hts t (by simp)
    have hget : (mapGet reqs key).getD [] = stored := by
      rcases hreq with ⟨h1, h2⟩ | h1
      · subst h1; subst h2; rfl
      · subst h1; simp [mapGet]
    have hfilter : stored.filter (fun time => t - time < D) = stored := by
      rw [List.filter_eq_self]
      intro x hx
      obtain ⟨hxu, hxd⟩ := hstored x hx
      simp only [decide_eq_true_eq]
      omega
    by_cases hcap : M ≤ stored.length
    · have hstep : SimpleRateLimiter.check ⟨M, D, reqs⟩ key t = (false, ⟨M, D, reqs⟩) := by
        unfold SimpleRateLimiter.check
        simp only [hget, hfilter]
        rw [if_pos hcap]
      have hrun : runChecks ⟨M, D, reqs⟩ key (t :: ts)
          = (false :: (runChecks ⟨M, D, reqs⟩ key ts).1,
             (runChecks ⟨M, D, reqs⟩ key ts).2) := by
        simp only [runChecks, hstep]
      rw [hrun]
      simp only
      rw [ih stored reqs hreq hstored (fun x hx => hts x (by simp [hx]))]
      have hMzero : M - stored.length = 0 := by omega
      simp [hMzero, List.replicate_succ]
    · have hset : mapSet reqs key (stored ++ [t]) = [(key, stored ++ [t])] := by
        rcases hreq with ⟨h1, _⟩ | h1
        · subst h1; rfl
        · subst h1; simp [mapSet]
      have hstep : SimpleRateLimiter.check ⟨M, D, reqs⟩ key t
          = (true, ⟨M, D, [(key, stored ++ [t])]⟩) := by
        unfold SimpleRateLimiter.check
        simp only [hget, hfilter]
        rw [if_neg hcap, hset]
        simp
      have ihres := ih (stored ++ [t]) [(key, stored ++ [t])] (Or.inr rfl)
        (fun x hx => by
          rcases List.mem_append.mp hx with h | h
          · exact hstored x h
          · rcases List.mem_singleton.mp h with rfl
            exact ⟨htu, htd⟩)
        (fun x hx => hts x (by simp [hx]))
      have hrun : runChecks ⟨M, D, reqs⟩ key (t :: ts)
          = (true :: (runChecks ⟨M, D, [(key, stored ++ [t])]⟩ key ts).1,
             (runChecks ⟨M, D, [(key, stored ++ [t])]⟩ key ts).2) := by
        simp only [runChecks, hstep]
      rw [hrun]
      simp only
      rw [ihres]
      have hk : min (M - stored.length) (ts.length + 1)
          = min (M - (stored ++ [t]).length) ts.length + 1 := by
        simp only [List.length_append, List.length_singleton]
        omega
      have hk2 : ts.length + 1 - (M - stored.length)
          = ts.length - (M - (stored ++ [t]).length) := by
        simp only [List.length_append, List.length_singleton]
        omega
      rw [List.length_cons, hk, hk2, List.replicate_succ, List.cons_append]

/-- The remaining-points header is the second rate-limit header. -/
theorem lookup_remaining_header (rlr : RateLimitResult) :
    List.lookup "X-RateLimit-Remaining" (getRateLimitHeaders rlr)
      = some (toString rlr.remaining) := by
  have e1 : (("X-RateLimit-Remaining" : String) == "X-RateLimit-Limit") = false := by decide
  have e2 : (("X-RateLimit-Limit" : String) == "X-RateLimit-Remaining") = false := by decide
  have e3 : (("X-RateLimit-Remaining" : String) == "X-RateLimit-Remaining") = true := by decide
  simp [getRateLimitHeaders, List.lookup, e1, e2, e3]

/-- C1: starting fresh, a client under a policy of `N` points per `W` seconds
is admitted on exactly the first `N` of `N + 1` calls that fall within one
window, and the final call is denied reporting zero remaining points and a
reset time of at most `W` seconds; the chat handler turns any denied
rate-limit result into a 429 response whose `X-RateLimit-Remaining` header is
`"0"`; and the in-source fallback `SimpleRateLimiter` admits exactly the first
`N` of `N + 1` in-window checks as well. -/
theorem rate_limit_exact_window (N W : Nat) (hN : 0 < N) (hW : 0 < W) (ip key : String)
    (t0 : Nat) (rest : List Nat) (hlen : rest.length = N)
    (hin : ∀ t ∈ rest, t0 ≤ t ∧ t < t0 + W * 1000)
    (u0 : Nat) (urest : List Nat) (hulen : urest.length = N)
    (huin : ∀ t ∈ urest, u0 ≤ t ∧ t - u0 < W * 1000)
    (q : RateLimitResult) (hq : q ∈ (runCalls ⟨N, W * 1000, []⟩ ip (t0 :: rest)).1)
    (hqf : q.success = false)
    (env : ChatEnv) (henv : env.rl = q) :
    ((runCalls ⟨N, W * 1000, []⟩ ip (t0 :: rest)).1.map (fun a => a.success)
      = List.replicate N true ++ [false])
    ∧ q.remaining = 0
    ∧ q.reset ≤ W
    ∧ (chatPOST env).status = 429
    ∧ List.lookup "X-RateLimit-Remaining" (chatPOST env).headers = some "0"
    ∧ (runChecks ⟨N, W * 1000, []⟩ key (u0 :: urest)).1
      = List.replicate N true ++ [false] := by
  have hfresh : rateLimit ⟨N, W * 1000, []⟩ ip t0
      = (⟨true, N, (N : Int) - 1, (W * 1000 + 999) / 1000⟩,
         ⟨N, W * 1000, mapSet [] ip ⟨(N : Int) - 1, t0⟩⟩) := by
    unfold rateLimit
    rw [consume_fresh N (W * 1000) [] ip t0 rfl hN]
  have hwnd := runCalls_in_window N (W * 1000) ip t0 rest
    (mapSet [] ip ⟨(N : Int) - 1, t0⟩) ((N : Int) - 1) (by omega)
    (mapGet_mapSet_self ([] : List (String × RLRecord)) ip ⟨(N : Int) - 1, t0⟩) hin
  have hrun : runCalls ⟨N, W * 1000, []⟩ ip (t0 :: rest)
      = (⟨true, N, (N : Int) - 1, (W * 1000 + 999) / 1000⟩
          :: (runCalls ⟨N, W * 1000, mapSet [] ip ⟨(N : Int) - 1, t0⟩⟩ ip rest).1,
         (runCalls ⟨N, W * 1000, mapSet [] ip ⟨(N : Int) - 1, t0⟩⟩ ip rest).2) := by
    simp only [runCalls, hfresh]
  have hceil : (W * 1000 + 999) / 1000 = W := by
    have h1 : W * 1000 + 999 = 1000 * W + 999 := by ring
    rw [h1, Nat.mul_add_div (by norm_num)]
    norm_num
  have hmap : (runCalls ⟨N, W * 1000, []⟩ ip (t0 :: rest)).1.map (fun a => a.success)
      = List.replicate N true ++ [false] := by
    rw [hrun]
    simp only [List.map_cons]
    rw [hwnd.1]
    have e1 : ((N : Int) - 1).toNat = N - 1 := by omega
    rw [hlen, e1]
    have e2 : min (N - 1) N = N - 1 := by omega
    have e3 : N - (N - 1) = 1 := by omega
    rw [e2, e3, show List.replicate 1 false = [false] from rfl,
      ← List.cons_append, ← List.replicate_succ]
    congr 2
    omega
  have hqmem : q ∈ (runCalls ⟨N, W * 1000, mapSet [] ip ⟨(N : Int) - 1, t0⟩⟩ ip rest).1 := by
    rw [hrun] at hq
    rcases List.mem_cons.mp hq with rfl | h
    · simp at hqf
    · exact h
  obtain ⟨hrem, hreset⟩ := hwnd.2 q hqmem hqf
  have hsf : env.rl.success = false := by rw [henv]; exact hqf
  refine ⟨hmap, hrem, ?_, ?_, ?_, ?_⟩
  · calc q.reset ≤ (W * 1000 + 999) / 1000 := hreset
      _ = W := hceil
  · unfold chatPOST
    rw [if_pos hsf]
  · unfold chatPOST
    rw [if_pos hsf]
    show List.lookup "X-RateLimit-Remaining" (getRateLimitHeaders env.rl) = some "0"
    rw [lookup_remaining_header, henv, hrem]
    rfl
  · have hres := runChecks_in_window N (W * 1000) key u0
      (Nat.mul_pos hW (by norm_num)) (u0 :: urest) [] [] (Or.inl ⟨rfl, rfl⟩)
      (by simp)
      (by
        intro x hx
        rcases List.mem_cons.mp hx with rfl | hx
        · exact ⟨le_rfl, by omega⟩
        · exact huin x hx)
    rw [hres]
    simp only [List.length_cons, hulen, List.length_nil, Nat.sub_zero]
    have e4 : min N (N + 1) = N := by omega
    have e5 : N + 1 - N = 1 := by omega
    rw [e4, e5]
    rfl

/-- Witness for C1: the chat policy (10 per 60 s) with 11 calls at time 0. -/
theorem rate_limit_exact_window_witness :
    ((runCalls ⟨10, 60 * 1000, []⟩ "203.0.113.7" (0 :: List.replicate 10 0)).1.map
        (fun a => a.success)
      = List.replicate 10 true ++ [false])
    ∧ (⟨false, 10, 0, 60⟩ : RateLimitResult).remaining = 0
    ∧ (⟨false, 10, 0, 60⟩ : RateLimitResult).reset ≤ 60
    ∧ (chatPOST ⟨⟨false, 10, 0, 60⟩, some ⟨[⟨"user", "Hi there"⟩]⟩, true,
        GroqResult.reply none, ⟨true, 200, none⟩⟩).status = 429
    ∧ List.lookup "X-RateLimit-Remaining"
        (chatPOST ⟨⟨false, 10, 0, 60⟩, some ⟨[⟨"user", "Hi there"⟩]⟩, true,
          GroqResult.reply none, ⟨true, 200, none⟩⟩).headers = some "0"
    ∧ (runChecks ⟨10, 60 * 1000, []⟩ "k" (0 :: List.replicate 10 0)).1
      = List.replicate 10 true ++ [false] :=
  rate_limit_exact_window 10 60 (by decide) (by decide) "203.0.113.7" "k"
    0 (List.replicate 10 0) (by decide) (by decide)
    0 (List.replicate 10 0) (by decide) (by decide)
    ⟨false, 10, 0, 60⟩ (by decide) (by decide)
    ⟨⟨false, 10, 0, 60⟩, some ⟨[⟨"user", "Hi there"⟩]⟩, true,
      GroqResult.reply none, ⟨true, 200, none⟩⟩ rfl

/-! ## Quota invariants of the primary limiter (C5) -/

/-- An admitted consumption always leaves a non-negative remaining count: the
decrement only happens under the positivity guard. -/
theorem consume_nonneg (rl : RateLimiterMemory) (ip : String) (t : Nat) (rem : Int)
    (ms : Nat) (st : RateLimiterMemory)
    (h : rl.consume ip t = (ConsumeOutcome.consumed rem ms, st)) : 0 ≤ rem := by
  unfold RateLimiterMemory.consume at h
  simp only [] at h
  split at h
  · simp only [Prod.mk.injEq, ConsumeOutcome.consumed.injEq] at h
    obtain ⟨⟨hrem, _⟩, _⟩ := h
    omega
  · simp at h

/-- The reported remaining quota of a `rateLimit` call is never negative. -/
theorem rateLimit_remaining_nonneg (rl : RateLimiterMemory) (ip : String) (t : Nat) :
    0 ≤ (rateLimit rl ip t).1.remaining := by
  unfold rateLimit
  cases h : RateLimiterMemory.consume rl ip t with
  | mk out st =>
    cases out with
    | consumed rem ms =>
      simp only []
      exact consume_nonneg rl ip t rem ms st h
    | rejected ms =>
      simp only []
      norm_num

/-- Over any call sequence from any state, every reported remaining quota is
non-negative. -/
theorem runCalls_remaining_nonneg (ip : String) : ∀ (ts : List Nat) (rl0 : RateLimiterMemory),
    ∀ q ∈ (runCalls rl0 ip ts).1, 0 ≤ q.remaining := by
  intro ts
  induction ts with
  | nil => intro rl0 q hq; simp [runCalls] at hq
  | cons t ts ih =>
    intro rl0 q hq
    simp only [runCalls] at hq
    rcases List.mem_cons.mp hq with rfl | hq2
    · exact rateLimit_remaining_nonneg rl0 ip t
    · exact ih (rateLimit rl0 ip t).2 q hq2

/-- Once the quota is exhausted, every further call inside the window is
denied and the limiter state is unchanged. -/
theorem runCalls_exhausted (N D : Nat) (ip : String) (store : List (String × RLRecord))
    (r : Int) (w : Nat) (hget : mapGet store ip = some ⟨r, w⟩) (hr : r ≤ 0) :
    ∀ (ts : List Nat), (∀ t ∈ ts, t < w + D) →
      (∀ q ∈ (runCalls ⟨N, D, store⟩ ip ts).1, q.success = false)
      ∧ (runCalls ⟨N, D, store⟩ ip ts).2 = ⟨N, D, store⟩ := by
  intro ts
  induction ts with
  | nil =>
    intro _
    exact ⟨by simp [runCalls], by simp [runCalls]⟩
  | cons t ts ih =>
    intro hts
    have hstep : rateLimit ⟨N, D, store⟩ ip t
        = (⟨false, N, 0, (w + D - t + 999) / 1000⟩, ⟨N, D, store⟩) := by
      unfold rateLimit
      rw [consume_exhausted N D store ip r w t hget (hts t (by simp)) hr]
    obtain ⟨ih1, ih2⟩ := ih (fun x hx => hts x (by simp [hx]))
    have hrun : runCalls ⟨N, D, store⟩ ip (t :: ts)
        = (⟨false, N, 0, (w + D - t + 999) / 1000⟩ :: (runCalls ⟨N, D, store⟩ ip ts).1,
           (runCalls ⟨N, D, store⟩ ip ts).2) := by
      simp only [runCalls, hstep]
    constructor
    · intro q hq
      rw [hrun] at hq
      rcases List.mem_cons.mp hq with rfl | hq2
      · rfl
      · exact ih1 q hq2
    · rw [hrun]
      exact ih2

/-- C5: the reported remaining quota is never negative, regardless of the call
history; once a client record is exhausted, every further call inside its
window is denied and leaves the state untouched; and once the window has fully
elapsed, the next call finds the quota reset to the full budget: it is
admitted reporting `N - 1` points left and a full-window reset time. -/
theorem rate_limit_quota_invariants (N D : Nat) (hN : 0 < N) (ip : String)
    (rl0 : RateLimiterMemory) (ts : List Nat) (q : RateLimitResult)
    (hq : q ∈ (runCalls rl0 ip ts).1)
    (store : List (String × RLRecord)) (r : Int) (w : Nat)
    (hget : mapGet store ip = some ⟨r, w⟩) (hr : r ≤ 0)
    (ts2 : List Nat) (hts2 : ∀ t ∈ ts2, t < w + D)
    (store2 : List (String × RLRecord)) (r2 : Int) (w2 : Nat)
    (hget2 : mapGet store2 ip = some ⟨r2, w2⟩) (t3 : Nat) (ht3 : w2 + D ≤ t3) :
    0 ≤ q.remaining
    ∧ (∀ p ∈ (runCalls ⟨N, D, store⟩ ip ts2).1, p.success = false)
    ∧ (runCalls ⟨N, D, store⟩ ip ts2).2 = ⟨N, D, store⟩
    ∧ (rateLimit ⟨N, D, store2⟩ ip t3).1
      = ⟨true, N, (N : Int) - 1, (D + 999) / 1000⟩ := by
  obtain ⟨hb, hc⟩ := runCalls_exhausted N D ip store r w hget hr ts2 hts2
  refine ⟨runCalls_remaining_nonneg ip ts rl0 q hq, hb, hc, ?_⟩
  unfold rateLimit
  rw [consume_stale N D store2 ip r2 w2 t3 hget2 ht3 hN]

/-- Witness for C5 with the chat policy: a run of three calls, an exhausted
record denied twice inside its window, and a full reset after the window. -/
theorem rate_limit_quota_invariants_witness :
    0 ≤ (⟨true, 10, 9, 60⟩ : RateLimitResult).remaining
    ∧ (∀ p ∈ (runCalls ⟨10, 60000, [("c", ⟨0, 100⟩)]⟩ "c" [150, 200]).1, p.success = false)
    ∧ (runCalls ⟨10, 60000, [("c", ⟨0, 100⟩)]⟩ "c" [150, 200]).2
      = ⟨10, 60000, [("c", ⟨0, 100⟩)]⟩
    ∧ (rateLimit ⟨10, 60000, [("c", ⟨0, 100⟩)]⟩ "c" 60100).1
      = ⟨true, 10, (10 : Int) - 1, (60000 + 999) / 1000⟩ :=
  rate_limit_quota_invariants 10 60000 (by decide) "c"
    ⟨10, 60000, []⟩ [0, 0] ⟨true, 10, 9, 60⟩ (by decide)
    [("c", ⟨0, 100⟩)] 0 100 (by decide) (by decide)
    [150, 200] (by decide)
    [("c", ⟨0, 100⟩)] 0 100 (by decide) 60100 (by decide)
